import Mathlib

/-!
Shallow embedding of the SEO Rankings Analyzer (src/app.py) and verification
of its specification claims.

Conventions:
- Python strings are modelled by `String`; the Python operations `lower`,
  `strip`, `split`, `in` (substring) and `isdigit` are modelled by
  kernel-evaluable functions over the underlying character lists.
- Machine floats only appear as percentage rates; they are modelled by `ℚ`.
- Fallible Python code (exceptions) is modelled with `Option`: a Python
  `ZeroDivisionError` is `none`, a failed network call is `none`.
- Concurrency is modelled by explicit completion orders: `as_completed`
  yields the submitted tasks in an arbitrary permutation of submission
  order, and the mutexes in the source serialise every shared-state update,
  so the batch runner is a fold over that permutation.
-/

namespace SeoRank

/-- Model of Python `needle in hay` (contiguous substring test) on char
lists: true iff `needle` occurs contiguously in the list. -/
def listContains (needle : List Char) : List Char → Bool
  | [] => needle.isEmpty
  | c :: t => needle.isPrefixOf (c :: t) || listContains needle t

/-- Python `needle in hay` on strings. -/
def strContains (hay needle : String) : Bool :=
  listContains needle.data hay.data

/-- Model of Python `str.lower()` (per-character lowercasing; the source
only ever lowercases ASCII domain names and URLs). -/
def pyLower (s : String) : String := ⟨s.data.map Char.toLower⟩

/-- Model of Python `str.strip()`. -/
def pyStrip (s : String) : String :=
  ⟨((s.data.dropWhile Char.isWhitespace).reverse.dropWhile Char.isWhitespace).reverse⟩

/-- Split a character list on a separator character, Python `str.split(sep)`
semantics (returns `[[]]` on the empty input). -/
def splitOnChar (sep : Char) : List Char → List (List Char)
  | [] => [[]]
  | c :: t =>
    if c == sep then [] :: splitOnChar sep t
    else
      match splitOnChar sep t with
      | [] => [[c]]
      | h :: r => (c :: h) :: r

/-- Model of Python `str.split(sep)` for a one-character separator. -/
def pySplit (sep : Char) (s : String) : List String :=
  (splitOnChar sep s.data).map fun cs => ⟨cs⟩

/-- Model of Python `str.isdigit()` (non-empty and all digits). -/
def pyIsDigit (s : String) : Bool :=
  !s.data.isEmpty && s.data.all Char.isDigit

/-- The `target_position` field of a result record: either an organic rank
`#k` or the fixed sentinel. Rendering to the exact strings the source
stores is `Position.render`. -/
inductive Position where
  | rank (k : Nat)
  | notOnPage1
deriving DecidableEq

/-- The string actually stored by `process_query`: `"#k"` or the sentinel
`"Not on Page 1"`. -/
def Position.render : Position → String
  | .rank k => "#" ++ toString k
  | .notOnPage1 => "Not on Page 1"

/-- One entry of the provider's `organic_results` array; `result.get('domain', '')`
and `result.get('title', 'N/A')` make both fields optional. -/
structure OrganicEntry where
  domain? : Option String
  title? : Option String
deriving DecidableEq

/-- One entry of the provider's (normalised) local-results array; every
field is read with `.get`, hence optional. -/
structure LocalEntry where
  title? : Option String
  rating? : Option ℚ
  reviews? : Option Nat
  website? : Option String
  link? : Option String
deriving DecidableEq

/-- A provider response already normalised to the shape `process_query`
reads: the `organic_results` array and the local results as extracted by
`get_local_results`. -/
structure SerpData where
  organic_results : List OrganicEntry
  local_results : List LocalEntry
deriving DecidableEq

/-- One query unit built by `main`: `{'keyword': …, 'location': …, 'query': …}`. -/
structure QueryUnit where
  keyword : String
  location : String
  query : String
deriving DecidableEq

/-- The dictionary returned by `process_query` on success. -/
structure ResultRecord where
  keyword : String
  location : String
  target_position : Position
  organic_results : List OrganicEntry
  local_results : List LocalEntry
deriving DecidableEq

/-- The match test of the `process_query` scan, exactly as in the source:
`target_url in result.get('domain', '').lower()` — only the result's domain
is lowercased, the target string is used verbatim. -/
def matchesTarget (target_url : String) (r : OrganicEntry) : Bool :=
  strContains (pyLower (r.domain?.getD "")) target_url

/-- The `for idx, result in enumerate(organic_results, 1)` scan of
`process_query`, with `break` on the first match. -/
def positionFrom (target_url : String) : Nat → List OrganicEntry → Position
  | _, [] => .notOnPage1
  | idx, r :: rest =>
    if matchesTarget target_url r then .rank idx
    else positionFrom target_url (idx + 1) rest

/-- The `target_position` computed by `process_query` for a target and an
organic-results list. -/
def targetPosition (target_url : String) (organic : List OrganicEntry) : Position :=
  positionFrom target_url 1 organic

/-- Modelled from the spec's words (for comparison with the code): a fully
case-insensitive substring match, i.e. both the domain and the target are
lowercased. -/
def specMatchesTarget (target_url : String) (r : OrganicEntry) : Bool :=
  strContains (pyLower (r.domain?.getD "")) (pyLower target_url)

/-- Modelled from the spec's words: the scan of C1 with the fully
case-insensitive match. -/
def specPositionFrom (target_url : String) : Nat → List OrganicEntry → Position
  | _, [] => .notOnPage1
  | idx, r :: rest =>
    if specMatchesTarget target_url r then .rank idx
    else specPositionFrom target_url (idx + 1) rest

/-- Modelled from the spec's words: `target_position` under the fully
case-insensitive match. -/
def specTargetPosition (target_url : String) (organic : List OrganicEntry) : Position :=
  specPositionFrom target_url 1 organic

/-- Index of the first element satisfying `p` (0-based), used to state what
the `process_query` scan computes. -/
def firstMatchIdx {α : Type} (p : α → Bool) : List α → Option Nat
  | [] => none
  | a :: t => if p a then some 0 else (firstMatchIdx p t).map (· + 1)

/-- A JSON value, for the raw (un-normalised) provider response read by
`get_local_results`. -/
inductive JVal where
  | null
  | bool (b : Bool)
  | num (q : ℚ)
  | str (s : String)
  | arr (elems : List JVal)
  | obj (fields : List (String × JVal))

/-- Python truthiness of a JSON value (`if not local_results`). -/
def truthy : JVal → Bool
  | .null => false
  | .bool b => b
  | .num q => q != 0
  | .str s => s != ""
  | .arr elems => !elems.isEmpty
  | .obj fields => !fields.isEmpty

/-- `get_local_results` from the source: read `local_results` (default
`[]`); if that is falsy and a `local_pack` key exists whose value is a
dict, read its `results` (default `[]`); otherwise keep the original
value. A JSON object is an association list of fields. -/
def get_local_results (serp_data : List (String × JVal)) : JVal :=
  let local_results := (serp_data.lookup "local_results").getD (.arr [])
  if truthy local_results then local_results
  else
    match serp_data.lookup "local_pack" with
    | some (.obj fields) => (fields.lookup "results").getD (.arr [])
    | some _ => local_results
    | none => local_results

/-- `process_query` from the source, with the network call abstracted as an
oracle `serp : QueryUnit → Option SerpData` (`none` covers a failed or
falsy `fetch_serp_data` result). On success the record carries the query's
keyword and location, the computed position, and both result lists
truncated to 3. -/
def process_query (serp : QueryUnit → Option SerpData) (target_url : String)
    (q : QueryUnit) : Option ResultRecord :=
  match serp q with
  | none => none
  | some d =>
    some { keyword := q.keyword
           location := q.location
           target_position := targetPosition target_url d.organic_results
           organic_results := d.organic_results.take 3
           local_results := d.local_results.take 3 }

/-- The mutable state of `parallel_process_queries`: the shared results
list, the shared completed counter, and (for the temporal claims) the trace
of counter values observed at each `update_progress` call. -/
structure BatchState where
  results : List ResultRecord
  completed : Nat
  trace : List Nat
deriving DecidableEq

/-- One completed future of `parallel_process_queries`: append the record
if the unit succeeded, then unconditionally increment the counter (both
under the mutex). -/
def runBatchStep (serp : QueryUnit → Option SerpData) (target_url : String)
    (s : BatchState) (q : QueryUnit) : BatchState :=
  let s1 :=
    match process_query serp target_url q with
    | some r => { s with results := s.results ++ [r] }
    | none => s
  { s1 with completed := s1.completed + 1, trace := s1.trace ++ [s1.completed + 1] }

/-- `parallel_process_queries` as a fold over the completion order of the
submitted futures (the lock serialises every completion). -/
def runBatch (serp : QueryUnit → Option SerpData) (target_url : String)
    (order : List QueryUnit) : BatchState :=
  order.foldl (runBatchStep serp target_url) ⟨[], 0, []⟩

/-- The list returned by `parallel_process_queries`. -/
def parallel_process_queries (serp : QueryUnit → Option SerpData)
    (target_url : String) (order : List QueryUnit) : List ResultRecord :=
  (runBatch serp target_url order).results

/-- One `wait()` call of `ThreadSafeRateLimiter`: the caller enters the
critical section `entryDelay ≥ 0` after the previous stamp (timestamps are
monotone and the lock is held across check, sleep and stamp), sleeps the
computed `time_to_wait`, and the new `last_call` stamp is taken `slack ≥ 0`
after the sleep ends (oversleep plus scheduling). The returned value is the
new `last_call`: the moment the limiter grants passage. -/
def waitGrant (calls_per_second last entryDelay slack : ℚ) : ℚ :=
  let now := last + entryDelay
  let time_to_wait := max 0 (1 / calls_per_second - (now - last))
  now + time_to_wait + slack

/-- The grant times of a sequence of `wait()` calls, each parameterised by
its (entry delay, slack) pair; the lock serialises the calls, so each call
starts from the previous stamp. -/
def grantTimes (calls_per_second : ℚ) (last : ℚ) : List (ℚ × ℚ) → List ℚ
  | [] => []
  | (d, s) :: rest =>
    let g := waitGrant calls_per_second last d s
    g :: grantTimes calls_per_second g rest

/-- Key used by the pandas pivot's aggregation lambda in `main`:
`float('inf') if y == 'Not on Page 1' else float(y.replace('#', ''))`. -/
def posKey : Position → WithTop Nat
  | .rank k => (k : WithTop Nat)
  | .notOnPage1 => ⊤

/-- Python `max(x, key=f)` over a non-empty sequence `x :: l`: keeps the
first element whose key is maximal. -/
def pyMaxBy (key : Position → WithTop Nat) (x : Position) (l : List Position) : Position :=
  l.foldl (fun best y => if key best < key y then y else best) x

/-- The positions of all records sharing a `(location, keyword)` key, in
record order (the group a pandas pivot cell aggregates). -/
def groupPositions (results : List ResultRecord) (loc kw : String) : List Position :=
  (results.filter fun r => r.location == loc && r.keyword == kw).map (·.target_position)

/-- The pivot cell of `main`'s `pd.pivot_table(..., aggfunc=lambda x: max(x, key=…))`
for a `(location, keyword)` key (`none` when no record has that key). -/
def pivotCell (results : List ResultRecord) (loc kw : String) : Option Position :=
  match groupPositions results loc kw with
  | [] => none
  | p :: ps => some (pyMaxBy posKey p ps)

/-- Modelled from the spec's words (for comparison with the code): retain
the best — lowest-numbered — rank, treating the sentinel as the worst
possible rank. -/
def specBestPosition : List Position → Option Position
  | [] => none
  | p :: ps => some (ps.foldl (fun best q => if posKey q < posKey best then q else best) p)

/-- The `ranking_matrix` dict comprehension of `generate_html_report`:
`{(r['location'], r['keyword']): r['target_position'] for r in results}` —
later records overwrite earlier ones. -/
def rankingMatrix (results : List ResultRecord) : String × String → Option Position :=
  results.foldl
    (fun m r => Function.update m (r.location, r.keyword) (some r.target_position))
    (fun _ => none)

/-- `total_queries = len(results)`. -/
def total_queries (results : List ResultRecord) : Nat := results.length

/-- `ranked_queries = len([r for r in results if '#' in r['target_position']])`. -/
def ranked_queries (results : List ResultRecord) : Nat :=
  (results.filter fun r => strContains r.target_position.render "#").length

/-- Python division: raises `ZeroDivisionError` (modelled as `none`) when
the denominator is zero. -/
def pyDiv (a b : ℚ) : Option ℚ := if b = 0 then none else some (a / b)

/-- The ranking rate `(ranked_queries / total_queries * 100)`, computed by
both `generate_html_report` and `main` with no guard on the denominator. -/
def ranking_rate (results : List ResultRecord) : Option ℚ :=
  (pyDiv (ranked_queries results) (total_queries results)).map (· * 100)

/-- `total_local_listings = len([r for r in results if r['local_results']])`. -/
def total_local_listings (results : List ResultRecord) : Nat :=
  (results.filter fun r => !r.local_results.isEmpty).length

/-- The local top-3 match test of the source:
`target_url.lower() in (business.get('website') or '').lower() or
 target_url.lower() in (business.get('link') or '').lower()`. -/
def localMatch (target_url : String) (b : LocalEntry) : Bool :=
  strContains (pyLower (b.website?.getD "")) (pyLower target_url) ||
  strContains (pyLower (b.link?.getD "")) (pyLower target_url)

/-- `in_top_3_local`: records whose first three local results contain the
target by website or link. -/
def in_top_3_local (target_url : String) (results : List ResultRecord) : Nat :=
  (results.filter fun r => (r.local_results.take 3).any (localMatch target_url)).length

/-- The local top-3 rate: guarded by `if total_local_listings > 0`, else
the literal `"0.0"`. -/
def local_rate (target_url : String) (results : List ResultRecord) : ℚ :=
  if 0 < total_local_listings results then
    (in_top_3_local target_url results : ℚ) / (total_local_listings results : ℚ) * 100
  else 0

/-- A processed location: a 5-digit ZIP string or a `{'city': …, 'state': …}`
dict. -/
inductive Loc where
  | zip (code : String)
  | cityState (city state : String)
deriving DecidableEq

/-- The human-readable location string used for queries and warnings:
the ZIP itself, or `f"{city}, {state}"`. -/
def displayLoc : Loc → String
  | .zip code => code
  | .cityState city state => city ++ ", " ++ state

/-- Classification of one (already stripped, non-empty) location line by
`main`: all-digits of length 5 is a ZIP, all-digits otherwise is a ZIP
error, a two-part comma split is a city/state pair, anything else is a
format error. The error strings are the source's bullet lines. -/
def classifyLine (loc : String) : Loc ⊕ String :=
  if pyIsDigit loc then
    if loc.data.length = 5 then .inl (.zip loc)
    else .inr ("• " ++ loc ++ " (invalid ZIP code - must be 5 digits)")
  else
    match (pySplit ',' loc).map pyStrip with
    | [city, state] => .inl (.cityState city state)
    | _ => .inr ("• " ++ loc ++ " (invalid format - use 'City, State' or 5-digit ZIP)")

/-- The location-processing loop of `main`: partition the lines into
processed locations and invalid-format messages, preserving order. -/
def processRawLocations (lines : List String) : List Loc × List String :=
  lines.foldl
    (fun acc loc =>
      match classifyLine loc with
      | .inl l => (acc.1 ++ [l], acc.2)
      | .inr m => (acc.1, acc.2 ++ [m]))
    ([], [])

/-- `[l.strip() for l in raw.split('\n') if l.strip()]` — the keyword and
location text areas are both split this way. -/
def inputLines (raw : String) : List String :=
  ((pySplit '\n' raw).map pyStrip).filter fun s => s != ""

/-- `chunk_size = max(1, len(processed_locations) // 3)`. -/
def chunkSizeOf (n : Nat) : Nat := max 1 (n / 3)

/-- Structural slicing helper (`fuel` bounds the recursion by the list
length, keeping the definition kernel-evaluable). -/
def chunksGo {α : Type} (cs : Nat) : Nat → List α → List (List α)
  | _, [] => []
  | 0, x :: xs => [x :: xs]
  | fuel + 1, x :: xs => (x :: xs).take cs :: chunksGo cs fuel (xs.drop (cs - 1))

/-- `[processed[i:i + chunk_size] for i in range(0, len(processed), chunk_size)]`. -/
def chunksOf {α : Type} (cs : Nat) (l : List α) : List (List α) :=
  chunksGo cs l.length l

/-- The chunked geocoding-validation stage of `main`: the chunks complete
in an arbitrary order (`chunkReorder`); each completed chunk contributes
its oracle-accepted locations to `valid_locations` and the display strings
of its rejected locations to `skipped_locations`. -/
def validateLocationsRun (geo : Loc → Bool)
    (chunkReorder : List (List Loc) → List (List Loc))
    (processed : List Loc) : List Loc × List String :=
  let completedChunks := chunkReorder (chunksOf (chunkSizeOf processed.length) processed)
  (completedChunks.flatMap fun c => c.filter geo,
   completedChunks.flatMap fun c => (c.filter fun l => !geo l).map displayLoc)

/-- One query dict of `main`'s builder loop. -/
def mkQuery (kw : String) (loc : Loc) : QueryUnit :=
  ⟨kw, displayLoc loc, kw ++ " " ++ displayLoc loc⟩

/-- The Query Builder of `main`: `for location in valid_locations: for
keyword in keyword_list: search_queries.append(…)` — locations outer,
keywords inner, appending one unit at a time. -/
def buildQueries (valid_locations : List Loc) (keyword_list : List String) : List QueryUnit :=
  valid_locations.foldl
    (fun acc loc => keyword_list.foldl (fun acc2 kw => acc2 ++ [mkQuery kw loc]) acc)
    []

/-- The observable outcome of one analysis run. -/
inductive RunOutcome where
  | missingFields
  | invalidInput (errors : List String)
  | noValidLocations
  | completed (results : List ResultRecord)
deriving DecidableEq

/-- Observable side effects of one run: the skipped-location warning
contents, and how many geocoding / provider calls were issued. -/
structure RunLog where
  skipped : List String
  geoCalls : Nat
  serpCalls : Nat
deriving DecidableEq

/-- The analysis pipeline of `main` from the Run Analysis click to the
collected results: required-field check, location-format validation
(all-or-nothing), chunked geocoding validation, query building, and the
parallel batch. `geo` is the address-validation oracle, `serp` the
ranked-results provider; `chunkReorder` and `queryReorder` are the
completion orders of the two thread pools. The log counts oracle calls:
each processed location is geocoded once, each dispatched query unit
performs one provider call, and a path that returns earlier performs
none. -/
def runAnalysis (geo : Loc → Bool) (serp : QueryUnit → Option SerpData)
    (target_url keywordsRaw locationsRaw : String)
    (chunkReorder : List (List Loc) → List (List Loc))
    (queryReorder : List QueryUnit → List QueryUnit) : RunOutcome × RunLog :=
  if target_url = "" ∨ keywordsRaw = "" ∨ locationsRaw = "" then
    (.missingFields, ⟨[], 0, 0⟩)
  else
    let pr := processRawLocations (inputLines locationsRaw)
    if pr.2 ≠ [] then (.invalidInput pr.2, ⟨[], 0, 0⟩)
    else
      let vs := validateLocationsRun geo chunkReorder pr.1
      if vs.1 = [] then (.noValidLocations, ⟨vs.2, pr.1.length, 0⟩)
      else
        let order := queryReorder (buildQueries vs.1 (inputLines keywordsRaw))
        (.completed (parallel_process_queries serp target_url order),
         ⟨vs.2, pr.1.length, order.length⟩)

end SeoRank

namespace SeoRank

theorem firstMatchIdx_eq_none_iff {α : Type} (p : α → Bool) (l : List α) :
    firstMatchIdx p l = none ↔ ∀ a ∈ l, p a = false := by
  induction l with
  | nil => simp [firstMatchIdx]
  | cons a t ih =>
    by_cases hp : p a
    · simp [firstMatchIdx, hp]
    · have hpf : p a = false := by simpa using hp
      simp [firstMatchIdx, hpf, Option.map_eq_none', ih]

theorem firstMatchIdx_eq_some_iff {α : Type} (p : α → Bool) :
    ∀ (l : List α) (i : Nat),
      firstMatchIdx p l = some i ↔
        ((∃ a, l[i]? = some a ∧ p a = true) ∧
          ∀ j, j < i → ∀ b, l[j]? = some b → p b = false) := by
  intro l
  induction l with
  | nil => intro i; simp [firstMatchIdx]
  | cons a t ih =>
    intro i
    by_cases hp : p a
    · rw [show firstMatchIdx p (a :: t) = some 0 from by simp [firstMatchIdx, hp]]
      constructor
      · intro h
        obtain rfl : i = 0 := (Option.some_inj.mp h).symm
        exact ⟨⟨a, by simp, hp⟩, fun j hj => absurd hj (Nat.not_lt_zero j)⟩
      · rintro ⟨⟨b, hb, hpb⟩, hall⟩
        cases i with
        | zero => rfl
        | succ n =>
          have := hall 0 (Nat.succ_pos n) a (by simp)
          rw [hp] at this
          cases this
    · have hpf : p a = false := by simpa using hp
      rw [show firstMatchIdx p (a :: t) = (firstMatchIdx p t).map (· + 1) from by
        simp [firstMatchIdx, hpf]]
      cases i with
      | zero =>
        constructor
        · intro h
          rcases Option.map_eq_some'.mp h with ⟨x, _, hx⟩
          omega
        · rintro ⟨⟨b, hb, hpb⟩, _⟩
          rw [List.getElem?_cons_zero] at hb
          injection hb with hb
          subst hb
          rw [hpf] at hpb
          cases hpb
      | succ n =>
        have hmap : (firstMatchIdx p t).map (· + 1) = some (n + 1) ↔
            firstMatchIdx p t = some n := by
          constructor
          · intro h
            rcases Option.map_eq_some'.mp h with ⟨x, hx, he⟩
            obtain rfl : x = n := by omega
            exact hx
          · intro h
            rw [h]
            rfl
        rw [hmap, ih n]
        constructor
        · rintro ⟨⟨b, hb, hpb⟩, hall⟩
          refine ⟨⟨b, by rw [List.getElem?_cons_succ]; exact hb, hpb⟩, ?_⟩
          intro j hj c hc
          cases j with
          | zero =>
            rw [List.getElem?_cons_zero] at hc
            injection hc with hc
            subst hc
            exact hpf
          | succ m =>
            rw [List.getElem?_cons_succ] at hc
            exact hall m (by omega) c hc
        · rintro ⟨⟨b, hb, hpb⟩, hall⟩
          rw [List.getElem?_cons_succ] at hb
          refine ⟨⟨b, hb, hpb⟩, ?_⟩
          intro j hj c hc
          exact hall (j + 1) (by omega) c (by rw [List.getElem?_cons_succ]; exact hc)

theorem positionFrom_eq_firstMatchIdx (target_url : String) :
    ∀ (R : List OrganicEntry) (i : Nat),
      positionFrom target_url i R =
        (match firstMatchIdx (matchesTarget target_url) R with
         | some j => Position.rank (i + j)
         | none => Position.notOnPage1) := by
  intro R
  induction R with
  | nil => intro i; rfl
  | cons r t ih =>
    intro i
    by_cases hm : matchesTarget target_url r
    · simp [positionFrom, firstMatchIdx, hm]
    · have hmf : matchesTarget target_url r = false := by simpa using hm
      rw [show positionFrom target_url i (r :: t) = positionFrom target_url (i + 1) t from by
        simp [positionFrom, hmf]]
      rw [ih (i + 1)]
      rw [show firstMatchIdx (matchesTarget target_url) (r :: t)
            = (firstMatchIdx (matchesTarget target_url) t).map (· + 1) from by
        simp [firstMatchIdx, hmf]]
      cases firstMatchIdx (matchesTarget target_url) t with
      | none => rfl
      | some j =>
        simp only [Option.map_some']
        congr 1
        omega

/-- Claim C1 (counterexample): the claimed fully case-insensitive match
fails on the code. For target `"ACME"` and a single organic result with
domain `"acme.com"`, the spec's case-insensitive scan finds rank 1, but
`process_query` (which lowercases only the result's domain, not the
target) yields the not-found sentinel. -/
theorem C1_counterexample :
    targetPosition "ACME" [⟨some "acme.com", none⟩] = Position.notOnPage1 ∧
    specTargetPosition "ACME" [⟨some "acme.com", none⟩] = Position.rank 1 ∧
    Position.notOnPage1 ≠ Position.rank 1 :=
  ⟨by decide, by decide, by decide⟩

/-- Claim C1 (amended): for every target string T and organic-results list
R, `process_query`'s scan sets the position to rank k where k is the
1-based index of the first element of R whose lowercased domain field
contains T verbatim (so the match is case-insensitive in the domain only;
it coincides with the claimed case-insensitive match exactly when T is
lowercase), and to the sentinel `Not on Page 1` iff no element matches. -/
theorem C1_target_position (target_url : String) (R : List OrganicEntry) :
    targetPosition target_url R =
      (match firstMatchIdx (matchesTarget target_url) R with
       | some i => Position.rank (i + 1)
       | none => Position.notOnPage1) ∧
    (∀ i, firstMatchIdx (matchesTarget target_url) R = some i ↔
       ((∃ r, R[i]? = some r ∧ matchesTarget target_url r = true) ∧
         ∀ j, j < i → ∀ r, R[j]? = some r → matchesTarget target_url r = false)) ∧
    (targetPosition target_url R = Position.notOnPage1 ↔
       ∀ r ∈ R, matchesTarget target_url r = false) := by
  refine ⟨?_, fun i => firstMatchIdx_eq_some_iff _ R i, ?_⟩
  · unfold targetPosition
    rw [positionFrom_eq_firstMatchIdx]
    cases firstMatchIdx (matchesTarget target_url) R with
    | none => rfl
    | some j => simp [Nat.add_comm]
  · unfold targetPosition
    rw [positionFrom_eq_firstMatchIdx]
    cases hf : firstMatchIdx (matchesTarget target_url) R with
    | none =>
      simpa using (firstMatchIdx_eq_none_iff (matchesTarget target_url) R).mp hf
    | some j =>
      constructor
      · intro h
        cases h
      · intro hall
        have hnone : firstMatchIdx (matchesTarget target_url) R = none :=
          (firstMatchIdx_eq_none_iff _ R).mpr hall
        rw [hf] at hnone
        cases hnone

end SeoRank

namespace SeoRank

theorem keywords_foldl_eq_map (loc : Loc) :
    ∀ (K : List String) (acc : List QueryUnit),
      K.foldl (fun acc2 kw => acc2 ++ [mkQuery kw loc]) acc
        = acc ++ K.map fun kw => mkQuery kw loc := by
  intro K
  induction K with
  | nil => intro acc; simp
  | cons k t ih =>
    intro acc
    rw [List.foldl_cons, ih]
    simp

theorem buildQueries_eq_flatMap (L : List Loc) (K : List String) :
    buildQueries L K = L.flatMap fun loc => K.map fun kw => mkQuery kw loc := by
  suffices h : ∀ acc,
      L.foldl (fun acc loc => K.foldl (fun acc2 kw => acc2 ++ [mkQuery kw loc]) acc) acc
        = acc ++ L.flatMap (fun loc => K.map fun kw => mkQuery kw loc) by
    simpa [buildQueries] using h []
  induction L with
  | nil => intro acc; simp
  | cons l t ih =>
    intro acc
    rw [List.foldl_cons, keywords_foldl_eq_map l K acc, ih]
    simp [List.flatMap_cons]

/-- Claim C2 (counterexample): with the duplicate keyword list `["a", "a"]`
and one location, the pair `("a", "90210")` is covered twice, not exactly
once. -/
theorem C2_counterexample :
    ((buildQueries [Loc.zip "90210"] ["a", "a"]).countP
        fun u => u.keyword == "a" && u.location == "90210") = 2 ∧
    ((buildQueries [Loc.zip "90210"] ["a", "a"]).countP
        fun u => u.keyword == "a" && u.location == "90210") ≠ 1 :=
  ⟨by decide, by decide⟩

/-- Claim C2 (amended): the Query Builder emits its units in the fixed
order locations outer, keywords inner; it produces exactly |K| · |L| units;
and each (keyword, location) pair is covered with multiplicity (occurrences
of the keyword in K) · (occurrences of the location display string in L) —
in particular exactly once per pair whenever K and the location display
strings are duplicate-free. -/
theorem C2_query_builder (K : List String) (L : List Loc) :
    buildQueries L K = (L.flatMap fun loc => K.map fun kw => mkQuery kw loc) ∧
    (buildQueries L K).length = K.length * L.length ∧
    ∀ kw ls, ((buildQueries L K).countP fun u => u.keyword == kw && u.location == ls)
      = (L.countP fun loc => displayLoc loc == ls) * K.count kw := by
  refine ⟨buildQueries_eq_flatMap L K, ?_, ?_⟩
  · rw [buildQueries_eq_flatMap]
    induction L with
    | nil => simp
    | cons l t ih =>
      simp only [List.flatMap_cons, List.length_append, List.length_map, ih,
        List.length_cons]
      ring
  · intro kw ls
    rw [buildQueries_eq_flatMap]
    induction L with
    | nil => simp
    | cons l t ih =>
      rw [List.flatMap_cons, List.countP_append, ih, List.countP_cons, List.countP_map]
      have hcomp : ((fun u : QueryUnit => u.keyword == kw && u.location == ls) ∘
          fun kw2 => mkQuery kw2 l) = fun kw2 => kw2 == kw && (displayLoc l == ls) := by
        funext kw2
        simp [mkQuery, Function.comp]
      rw [hcomp]
      by_cases hls : displayLoc l == ls
      · simp only [hls, Bool.and_true]
        rw [← List.count_eq_countP]
        simp only [hls, if_true]
        ring
      · have hls' : (displayLoc l == ls) = false := by simpa using hls
        simp [hls']

/-- Claim C5 (code bug): on the empty batch, `local_rate` is guarded and
yields 0 as the claim demands, but `ranking_rate` divides by
`total_queries = 0` with no guard — the division errors (modelled as
`none`) instead of yielding the claimed 0.0. -/
theorem C5_zero_denominator (target_url : String) :
    ranking_rate [] = none ∧
    local_rate target_url [] = 0 ∧
    total_queries [] = 0 ∧
    total_local_listings [] = 0 := by
  refine ⟨?_, ?_, rfl, rfl⟩
  · simp [ranking_rate, pyDiv, total_queries, ranked_queries]
  · simp [local_rate, total_local_listings]

end SeoRank

namespace SeoRank

theorem runBatch_foldl_spec (serp : QueryUnit → Option SerpData) (target_url : String) :
    ∀ (order : List QueryUnit) (s : BatchState),
      (order.foldl (runBatchStep serp target_url) s).results
          = s.results ++ order.filterMap (process_query serp target_url) ∧
      (order.foldl (runBatchStep serp target_url) s).completed = s.completed + order.length ∧
      (order.foldl (runBatchStep serp target_url) s).trace
          = s.trace ++ (List.range order.length).map fun i => s.completed + i + 1 := by
  intro order
  induction order with
  | nil => intro s; simp
  | cons q t ih =>
    intro s
    rw [List.foldl_cons]
    have hstep : runBatchStep serp target_url s q =
        ⟨s.results ++ (process_query serp target_url q).toList,
         s.completed + 1, s.trace ++ [s.completed + 1]⟩ := by
      cases hq : process_query serp target_url q <;> simp [runBatchStep, hq]
    rw [hstep]
    obtain ⟨h1, h2, h3⟩ := ih ⟨s.results ++ (process_query serp target_url q).toList,
      s.completed + 1, s.trace ++ [s.completed + 1]⟩
    refine ⟨?_, ?_, ?_⟩
    · rw [h1]
      cases hq : process_query serp target_url q <;>
        simp [List.filterMap_cons, hq]
    · rw [h2]
      show s.completed + 1 + t.length = s.completed + (q :: t).length
      simp only [List.length_cons]
      omega
    · rw [h3]
      show (s.trace ++ [s.completed + 1]) ++
            (List.range t.length).map (fun i => s.completed + 1 + i + 1)
          = s.trace ++ (List.range (q :: t).length).map fun i => s.completed + i + 1
      simp only [List.length_cons, List.range_succ_eq_map, List.map_cons, List.map_map]
      have hfun : ((fun i => s.completed + i + 1) ∘ fun i => i + 1)
          = fun i => s.completed + 1 + i + 1 := by
        funext i
        simp only [Function.comp_apply]
        omega
      rw [hfun]
      simp [List.append_assoc]

/-- Claim C3: the Concurrent Batch Runner, for any completion order of the
submitted units, returns (as a multiset) exactly the records of the units
whose execution succeeded — hence never more records than units submitted,
no duplicates, no entries for failed units, and every record carries the
keyword and location of some submitted unit. -/
theorem C3_batch_runner (serp : QueryUnit → Option SerpData) (target_url : String)
    (queries order : List QueryUnit) (h : order.Perm queries) :
    (parallel_process_queries serp target_url order).Perm
      (queries.filterMap (process_query serp target_url)) ∧
    (parallel_process_queries serp target_url order).length ≤ queries.length ∧
    ∀ r ∈ parallel_process_queries serp target_url order,
      ∃ q ∈ queries, process_query serp target_url q = some r ∧
        r.keyword = q.keyword ∧ r.location = q.location := by
  have hres : parallel_process_queries serp target_url order
      = order.filterMap (process_query serp target_url) := by
    have e : parallel_process_queries serp target_url order
        = (order.foldl (runBatchStep serp target_url) ⟨[], 0, []⟩).results := rfl
    rw [e, (runBatch_foldl_spec serp target_url order ⟨[], 0, []⟩).1]
    simp
  refine ⟨?_, ?_, ?_⟩
  · rw [hres]
    exact h.filterMap _
  · rw [hres]
    calc (order.filterMap (process_query serp target_url)).length
        ≤ order.length := List.length_filterMap_le _ _
      _ = queries.length := h.length_eq
  · intro r hr
    rw [hres] at hr
    rcases List.mem_filterMap.mp hr with ⟨q, hq, hpq⟩
    have hkl : r.keyword = q.keyword ∧ r.location = q.location := by
      cases hsq : serp q with
      | none => simp [process_query, hsq] at hpq
      | some d =>
        simp only [process_query, hsq, Option.some.injEq] at hpq
        subst hpq
        exact ⟨rfl, rfl⟩
    exact ⟨q, h.mem_iff.mp hq, hpq, hkl.1, hkl.2⟩

/-- Witness for C3: a concrete one-unit batch whose only query fails; the
hypothesis (the completion order is a permutation of the submitted units)
is discharged at a concrete input. -/
theorem C3_batch_runner_witness :
    (List.Perm [mkQuery "a" (Loc.zip "90210")] [mkQuery "a" (Loc.zip "90210")]) ∧
    ((parallel_process_queries (fun _ => none) "t" [mkQuery "a" (Loc.zip "90210")]).Perm
      ([mkQuery "a" (Loc.zip "90210")].filterMap (process_query (fun _ => none) "t")) ∧
     (parallel_process_queries (fun _ => none) "t" [mkQuery "a" (Loc.zip "90210")]).length ≤
       ([mkQuery "a" (Loc.zip "90210")] : List QueryUnit).length ∧
     ∀ r ∈ parallel_process_queries (fun _ => none) "t" [mkQuery "a" (Loc.zip "90210")],
       ∃ q ∈ [mkQuery "a" (Loc.zip "90210")],
         process_query (fun _ => none) "t" q = some r ∧
         r.keyword = q.keyword ∧ r.location = q.location) :=
  ⟨List.Perm.refl _, C3_batch_runner (fun _ => none) "t" _ _ (List.Perm.refl _)⟩

/-- Claim C6: for any completion order of the batch, the shared progress
counter's observed values are exactly 1, 2, …, total (one increment per
unit reaching a terminal state), the sequence is monotonically
non-decreasing, and the counter equals the number of submitted units when
the batch call returns. -/
theorem C6_progress_counter (serp : QueryUnit → Option SerpData) (target_url : String)
    (queries order : List QueryUnit) (h : order.Perm queries) :
    (runBatch serp target_url order).trace = (List.range queries.length).map (· + 1) ∧
    List.Chain' (· ≤ ·) (runBatch serp target_url order).trace ∧
    (runBatch serp target_url order).completed = queries.length := by
  have e : runBatch serp target_url order
      = order.foldl (runBatchStep serp target_url) ⟨[], 0, []⟩ := rfl
  obtain ⟨h1, h2, h3⟩ := runBatch_foldl_spec serp target_url order ⟨[], 0, []⟩
  have htr : (runBatch serp target_url order).trace
      = (List.range queries.length).map (· + 1) := by
    rw [e, h3, h.length_eq]
    simp
  refine ⟨htr, ?_, ?_⟩
  · rw [htr]
    refine List.Pairwise.chain' ?_
    rw [List.pairwise_map]
    exact (List.pairwise_lt_range queries.length).imp
      fun hab => Nat.succ_le_succ (Nat.le_of_lt hab)
  · rw [e, h2]
    show 0 + order.length = queries.length
    rw [h.length_eq, Nat.zero_add]

/-- Witness for C6: the same concrete one-unit batch; the permutation
hypothesis is discharged at a concrete input. -/
theorem C6_progress_counter_witness :
    (List.Perm [mkQuery "a" (Loc.zip "90210")] [mkQuery "a" (Loc.zip "90210")]) ∧
    ((runBatch (fun _ => none) "u" [mkQuery "a" (Loc.zip "90210")]).trace
        = (List.range ([mkQuery "a" (Loc.zip "90210")] : List QueryUnit).length).map (· + 1) ∧
     List.Chain' (· ≤ ·) (runBatch (fun _ => none) "u" [mkQuery "a" (Loc.zip "90210")]).trace ∧
     (runBatch (fun _ => none) "u" [mkQuery "a" (Loc.zip "90210")]).completed
        = ([mkQuery "a" (Loc.zip "90210")] : List QueryUnit).length) :=
  ⟨List.Perm.refl _, C6_progress_counter (fun _ => none) "u" _ _ (List.Perm.refl _)⟩

end SeoRank

namespace SeoRank

theorem pyMaxBy_spec (key : Position → WithTop Nat) :
    ∀ (l : List Position) (x : Position),
      pyMaxBy key x l ∈ x :: l ∧ ∀ y ∈ x :: l, key y ≤ key (pyMaxBy key x l) := by
  intro l
  induction l with
  | nil =>
    intro x
    refine ⟨List.mem_cons_self x [], ?_⟩
    intro y hy
    rcases List.mem_cons.mp hy with rfl | hy
    · exact le_refl _
    · cases hy
  | cons y t ih =>
    intro x
    have step : pyMaxBy key x (y :: t) = pyMaxBy key (if key x < key y then y else x) t := rfl
    obtain ⟨hmem, hle⟩ := ih (if key x < key y then y else x)
    have hnextmem : (if key x < key y then y else x) ∈ x :: y :: t := by
      by_cases hxy : key x < key y
      · rw [if_pos hxy]
        exact List.mem_cons_of_mem x (List.mem_cons_self y t)
      · rw [if_neg hxy]
        exact List.mem_cons_self x (y :: t)
    have hxle : key x ≤ key (if key x < key y then y else x) := by
      by_cases hxy : key x < key y
      · rw [if_pos hxy]
        exact le_of_lt hxy
      · rw [if_neg hxy]
    have hyle : key y ≤ key (if key x < key y then y else x) := by
      by_cases hxy : key x < key y
      · rw [if_pos hxy]
      · rw [if_neg hxy]
        exact le_of_not_lt hxy
    refine ⟨?_, ?_⟩
    · rw [step]
      rcases List.mem_cons.mp hmem with hm | hm
      · rw [hm]
        exact hnextmem
      · exact List.mem_cons_of_mem x (List.mem_cons_of_mem y hm)
    · intro z hz
      rw [step]
      have hnextle : key (if key x < key y then y else x) ≤
          key (pyMaxBy key (if key x < key y then y else x) t) :=
        hle _ (List.mem_cons_self _ t)
      rcases List.mem_cons.mp hz with rfl | hz'
      · exact le_trans hxle hnextle
      · rcases List.mem_cons.mp hz' with rfl | hz''
        · exact le_trans hyle hnextle
        · exact hle z (List.mem_cons_of_mem _ hz'')

theorem rankingMatrix_lookup (loc kw : String) :
    ∀ (rs : List ResultRecord),
      rankingMatrix rs (loc, kw) = (groupPositions rs loc kw).getLast? := by
  intro rs
  induction rs using List.reverseRecOn with
  | nil => rfl
  | append_singleton rs r ih =>
    have hm : rankingMatrix (rs ++ [r])
        = Function.update (rankingMatrix rs) (r.location, r.keyword)
            (some r.target_position) := by
      simp [rankingMatrix, List.foldl_append]
    rw [hm, Function.update_apply]
    by_cases hk : (loc, kw) = (r.location, r.keyword)
    · rw [if_pos hk]
      injection hk with h1 h2
      subst h1
      subst h2
      have hg : groupPositions (rs ++ [r]) r.location r.keyword
          = groupPositions rs r.location r.keyword ++ [r.target_position] := by
        simp [groupPositions, List.filter_append]
      rw [hg, List.getLast?_concat]
    · rw [if_neg hk]
      have hcond : (r.location == loc && r.keyword == kw) = false := by
        by_contra hc
        have hc' : (r.location == loc && r.keyword == kw) = true := by
          revert hc
          cases r.location == loc && r.keyword == kw <;> simp
        rw [Bool.and_eq_true, beq_iff_eq, beq_iff_eq] at hc'
        exact hk (by rw [hc'.1, hc'.2])
      rw [show groupPositions (rs ++ [r]) loc kw = groupPositions rs loc kw from by
        simp [groupPositions, List.filter_append, hcond]]
      exact ih

/-- Claim C4 (counterexample): two records share the key `("l", "k")` with
positions `#1` and `#3`; the code's pivot cell retains `#3` (the worst),
while the claimed best-rank tie-break would retain `#1` — and the HTML
report's ranking matrix simply keeps the last record's position. -/
theorem C4_counterexample :
    pivotCell [⟨"k", "l", Position.rank 1, [], []⟩, ⟨"k", "l", Position.rank 3, [], []⟩]
        "l" "k" = some (Position.rank 3) ∧
    specBestPosition [Position.rank 1, Position.rank 3] = some (Position.rank 1) ∧
    Position.rank 3 ≠ Position.rank 1 ∧
    rankingMatrix [⟨"k", "l", Position.rank 1, [], []⟩, ⟨"k", "l", Position.rank 3, [], []⟩]
        ("l", "k") = some (Position.rank 3) :=
  ⟨by decide, by decide, by decide, by decide⟩

/-- Claim C4 (amended): when multiple records share the same
(location, keyword) key, the dashboard pivot retains the worst rank of the
group — an element of the group whose key (rank number, with the sentinel
as infinity) is maximal — not the best; and the HTML report's
ranking-matrix dict retains the position of the last record for the key,
with no rank comparison at all. The sentinel is treated as worse than
every numbered rank in the comparison. -/
theorem C4_pivot_aggregation (rs : List ResultRecord) (loc kw : String) :
    (∀ c, pivotCell rs loc kw = some c →
        c ∈ groupPositions rs loc kw ∧
        ∀ p ∈ groupPositions rs loc kw, posKey p ≤ posKey c) ∧
    rankingMatrix rs (loc, kw) = (groupPositions rs loc kw).getLast? := by
  refine ⟨?_, rankingMatrix_lookup loc kw rs⟩
  intro c hc
  unfold pivotCell at hc
  cases hg : groupPositions rs loc kw with
  | nil =>
    rw [hg] at hc
    cases hc
  | cons p ps =>
    rw [hg] at hc
    injection hc with hc
    subst hc
    obtain ⟨hmem, hle⟩ := pyMaxBy_spec posKey ps p
    exact ⟨hmem, hle⟩

/-- Witness for C4: a concrete group containing `#2` and the sentinel; the
cell hypothesis is discharged by evaluation and the retained value is the
sentinel (the worst), which dominates every key of the group. -/
theorem C4_pivot_aggregation_witness :
    pivotCell [⟨"k", "q", Position.rank 2, [], []⟩, ⟨"k", "q", Position.notOnPage1, [], []⟩]
        "q" "k" = some Position.notOnPage1 ∧
    (Position.notOnPage1 ∈ groupPositions
        [⟨"k", "q", Position.rank 2, [], []⟩, ⟨"k", "q", Position.notOnPage1, [], []⟩]
        "q" "k" ∧
      ∀ p ∈ groupPositions
        [⟨"k", "q", Position.rank 2, [], []⟩, ⟨"k", "q", Position.notOnPage1, [], []⟩]
        "q" "k",
        posKey p ≤ posKey Position.notOnPage1) :=
  ⟨by decide, (C4_pivot_aggregation
      [⟨"k", "q", Position.rank 2, [], []⟩, ⟨"k", "q", Position.notOnPage1, [], []⟩]
      "q" "k").1 Position.notOnPage1 (by decide)⟩

end SeoRank

namespace SeoRank

theorem waitGrant_ge (last d s : ℚ) (_hd : 0 ≤ d) (hs : 0 ≤ s) :
    last + 1 ≤ waitGrant 1 last d s := by
  show last + 1 ≤ (last + d) + max 0 (1 / 1 - (last + d - last)) + s
  have hmax : (1 : ℚ) - d ≤ max 0 (1 / 1 - (last + d - last)) := by
    have he : (1 : ℚ) / 1 - (last + d - last) = 1 - d := by ring
    rw [he]
    exact le_max_right 0 (1 - d)
  linarith [hmax]

theorem grantTimes_chain (calls : List (ℚ × ℚ)) :
    ∀ (last : ℚ), (∀ p ∈ calls, 0 ≤ p.1 ∧ 0 ≤ p.2) →
      List.Chain' (fun a b => a + 1 ≤ b) (grantTimes 1 last calls) ∧
      ∀ g ∈ grantTimes 1 last calls, last + 1 ≤ g := by
  induction calls with
  | nil =>
    intro last _
    exact ⟨List.chain'_nil, by simp [grantTimes]⟩
  | cons ds rest ih =>
    intro last h
    obtain ⟨d, s⟩ := ds
    have hds := h (d, s) (List.mem_cons_self _ _)
    have hrest : ∀ p ∈ rest, 0 ≤ p.1 ∧ 0 ≤ p.2 :=
      fun p hp => h p (List.mem_cons_of_mem _ hp)
    have hg : grantTimes 1 last ((d, s) :: rest)
        = waitGrant 1 last d s :: grantTimes 1 (waitGrant 1 last d s) rest := rfl
    obtain ⟨hchain, hallge⟩ := ih (waitGrant 1 last d s) hrest
    have hfirst : last + 1 ≤ waitGrant 1 last d s := waitGrant_ge last d s hds.1 hds.2
    rw [hg]
    constructor
    · rw [List.chain'_cons']
      refine ⟨?_, hchain⟩
      intro y hy
      exact hallge y (List.mem_of_mem_head? hy)
    · intro g hgm
      rcases List.mem_cons.mp hgm with rfl | hgm
      · exact hfirst
      · have := hallge g hgm
        linarith

theorem grantTimes_length (calls : List (ℚ × ℚ)) :
    ∀ (t0 : ℚ), (grantTimes 1 t0 calls).length = calls.length := by
  induction calls with
  | nil => intro t0; rfl
  | cons ds rest ih =>
    intro t0
    obtain ⟨d, s⟩ := ds
    simp [grantTimes, ih]

theorem chain_one_span :
    ∀ (l : List ℚ), List.Chain' (fun a b => a + 1 ≤ b) l →
      ∀ g1 gN, l.head? = some g1 → l.getLast? = some gN →
        (l.length : ℚ) - 1 ≤ gN - g1 := by
  intro l
  induction l with
  | nil =>
    intro _ g1 gN h1
    cases h1
  | cons a t ih =>
    intro hc g1 gN h1 hN
    injection h1 with h1
    subst h1
    cases t with
    | nil =>
      rw [List.getLast?_singleton] at hN
      injection hN with hN
      subst hN
      simp
    | cons b t2 =>
      rw [List.chain'_cons] at hc
      rw [List.getLast?_cons_cons] at hN
      have hih := ih hc.2 b gN rfl hN
      have hab : a + 1 ≤ b := hc.1
      have hlen : (((a :: b :: t2) : List ℚ).length : ℚ) = ((b :: t2).length : ℚ) + 1 := by
        push_cast [List.length_cons]
        ring
      rw [hlen]
      linarith

/-- Claim C7: with `calls_per_second = 1` and the lock held across the
whole check–sleep–stamp critical section, consecutive grants of
`ThreadSafeRateLimiter.wait` are separated by at least the one-second
spacing interval (so no two grants fall within one spacing interval), and
the grant moments of any N calls span at least N - 1 seconds — for every
interleaving of concurrent callers, modelled as arbitrary non-negative
entry delays and sleep slacks. -/
theorem C7_rate_limiter (t0 : ℚ) (calls : List (ℚ × ℚ))
    (h : ∀ p ∈ calls, 0 ≤ p.1 ∧ 0 ≤ p.2) :
    List.Chain' (fun a b => a + 1 ≤ b) (grantTimes 1 t0 calls) ∧
    ∀ g1 gN, (grantTimes 1 t0 calls).head? = some g1 →
      (grantTimes 1 t0 calls).getLast? = some gN →
      (calls.length : ℚ) - 1 ≤ gN - g1 := by
  obtain ⟨hchain, _⟩ := grantTimes_chain calls t0 h
  refine ⟨hchain, ?_⟩
  intro g1 gN h1 hN
  have hlen : (grantTimes 1 t0 calls).length = calls.length := grantTimes_length calls t0
  have hspan := chain_one_span (grantTimes 1 t0 calls) hchain g1 gN h1 hN
  rw [hlen] at hspan
  exact hspan

/-- Witness for C7: two wait calls entering with no extra delay and exact
sleeps; the non-negativity hypothesis is discharged at the concrete
input. -/
theorem C7_rate_limiter_witness :
    (∀ p ∈ [((0 : ℚ), (0 : ℚ)), ((0 : ℚ), (0 : ℚ))], 0 ≤ p.1 ∧ 0 ≤ p.2) ∧
    (List.Chain' (fun a b => a + 1 ≤ b)
        (grantTimes 1 0 [((0 : ℚ), (0 : ℚ)), ((0 : ℚ), (0 : ℚ))]) ∧
     ∀ g1 gN, (grantTimes 1 0 [((0 : ℚ), (0 : ℚ)), ((0 : ℚ), (0 : ℚ))]).head? = some g1 →
       (grantTimes 1 0 [((0 : ℚ), (0 : ℚ)), ((0 : ℚ), (0 : ℚ))]).getLast? = some gN →
       (([((0 : ℚ), (0 : ℚ)), ((0 : ℚ), (0 : ℚ))] : List (ℚ × ℚ)).length : ℚ) - 1 ≤ gN - g1) :=
  ⟨by norm_num, C7_rate_limiter 0 [((0 : ℚ), (0 : ℚ)), ((0 : ℚ), (0 : ℚ))] (by norm_num)⟩

end SeoRank

namespace SeoRank

/-- Claim C10 (counterexample): a response whose `local_results` key holds
`null` (present but falsy) and which has no `local_pack` key makes
`get_local_results` return `null` itself — not the empty list that the
claim's "otherwise an empty list is returned" clause demands. -/
theorem C10_counterexample :
    get_local_results [("local_results", JVal.null)] = JVal.null ∧
    JVal.null ≠ JVal.arr [] :=
  ⟨rfl, fun h => JVal.noConfusion h⟩

/-- Claim C10 (amended): `get_local_results` returns the `local_results`
value whenever it is truthy; the `local_pack → results` shape is consulted
only when the `local_results` value is falsy (missing, empty, or another
falsy value such as `null`) and `local_pack` holds a dict, in which case
that dict's `results` value (default the empty list) is returned;
otherwise the falsy `local_results` value itself is returned — the empty
list when the key is absent, but e.g. `null` as-is when present. In
particular, when both shapes are present and non-empty, `local_results`
takes precedence. -/
theorem C10_local_results (serp_data : List (String × JVal)) :
    (truthy ((serp_data.lookup "local_results").getD (JVal.arr [])) = true →
      get_local_results serp_data
        = (serp_data.lookup "local_results").getD (JVal.arr [])) ∧
    (truthy ((serp_data.lookup "local_results").getD (JVal.arr [])) = false →
      ∀ fields, serp_data.lookup "local_pack" = some (JVal.obj fields) →
        get_local_results serp_data = (fields.lookup "results").getD (JVal.arr [])) ∧
    (truthy ((serp_data.lookup "local_results").getD (JVal.arr [])) = false →
      (∀ fields, serp_data.lookup "local_pack" ≠ some (JVal.obj fields)) →
        get_local_results serp_data
          = (serp_data.lookup "local_results").getD (JVal.arr [])) := by
  refine ⟨?_, ?_, ?_⟩
  · intro ht
    simp only [get_local_results]
    rw [if_pos ht]
  · intro hf fields hlp
    simp only [get_local_results]
    rw [if_neg (by simp [hf]), hlp]
  · intro hf hnp
    simp only [get_local_results]
    rw [if_neg (by simp [hf])]
    cases hl : serp_data.lookup "local_pack" with
    | none => rfl
    | some v =>
      cases v with
      | null => rfl
      | bool b => rfl
      | num q => rfl
      | str s => rfl
      | arr elems => rfl
      | obj fields => exact absurd hl (hnp fields)

/-- Witness for C10: both shapes present and non-empty; the truthiness
hypothesis is discharged by evaluation and `local_results` takes
precedence. -/
theorem C10_local_results_witness :
    truthy (([(("local_results" : String), JVal.arr [JVal.str "x"]),
        ("local_pack", JVal.obj [("results", JVal.arr [JVal.str "y"])])].lookup
          "local_results").getD (JVal.arr [])) = true ∧
    get_local_results [("local_results", JVal.arr [JVal.str "x"]),
        ("local_pack", JVal.obj [("results", JVal.arr [JVal.str "y"])])]
      = ([(("local_results" : String), JVal.arr [JVal.str "x"]),
        ("local_pack", JVal.obj [("results", JVal.arr [JVal.str "y"])])].lookup
          "local_results").getD (JVal.arr []) :=
  ⟨by rfl, (C10_local_results _).1 (by rfl)⟩

end SeoRank

namespace SeoRank

theorem processRawLocations_foldl :
    ∀ (lines : List String) (acc : List Loc × List String),
      lines.foldl
        (fun acc loc =>
          match classifyLine loc with
          | .inl l => (acc.1 ++ [l], acc.2)
          | .inr m => (acc.1, acc.2 ++ [m])) acc
      = (acc.1 ++ lines.filterMap (fun s => (classifyLine s).getLeft?),
         acc.2 ++ lines.filterMap (fun s => (classifyLine s).getRight?)) := by
  intro lines
  induction lines with
  | nil => intro acc; simp
  | cons s t ih =>
    intro acc
    rw [List.foldl_cons]
    cases hc : classifyLine s with
    | inl l =>
      have hgl : (classifyLine s).getLeft? = some l := by
        rw [hc]
        rfl
      have hgr : (classifyLine s).getRight? = none := by
        rw [hc]
        rfl
      rw [ih]
      simp [List.filterMap_cons, hgl, hgr, List.append_assoc]
    | inr m =>
      have hgl : (classifyLine s).getLeft? = none := by
        rw [hc]
        rfl
      have hgr : (classifyLine s).getRight? = some m := by
        rw [hc]
        rfl
      rw [ih]
      simp [List.filterMap_cons, hgl, hgr, List.append_assoc]

theorem processRawLocations_eq (lines : List String) :
    processRawLocations lines
      = (lines.filterMap (fun s => (classifyLine s).getLeft?),
         lines.filterMap (fun s => (classifyLine s).getRight?)) := by
  unfold processRawLocations
  rw [processRawLocations_foldl]
  simp

/-- Claim C8: whenever the location list contains at least one malformed
line (neither a two-part City, State split nor a 5-digit all-digit ZIP, as
classified by the source), the run — for every oracle behaviour and every
completion order — stops with the invalid-input error whose message list
contains exactly the bullet lines of the malformed inputs in order, makes
zero geocoding calls and zero provider calls, and keeps every well-formed
line (none is silently dropped at this stage). -/
theorem C8_invalid_locations (geo : Loc → Bool) (serp : QueryUnit → Option SerpData)
    (target_url kRaw lRaw : String)
    (cR : List (List Loc) → List (List Loc)) (qR : List QueryUnit → List QueryUnit)
    (hT : target_url ≠ "") (hK : kRaw ≠ "")
    (hInv : (processRawLocations (inputLines lRaw)).2 ≠ []) :
    runAnalysis geo serp target_url kRaw lRaw cR qR
      = (RunOutcome.invalidInput (processRawLocations (inputLines lRaw)).2,
         ⟨[], 0, 0⟩) ∧
    (processRawLocations (inputLines lRaw)).2
      = (inputLines lRaw).filterMap (fun s => (classifyLine s).getRight?) ∧
    (processRawLocations (inputLines lRaw)).1
      = (inputLines lRaw).filterMap (fun s => (classifyLine s).getLeft?) := by
  have hL : lRaw ≠ "" := by
    intro he
    apply hInv
    rw [he]
    rfl
  have hor : ¬(target_url = "" ∨ kRaw = "" ∨ lRaw = "") := by
    rintro (h | h | h)
    · exact hT h
    · exact hK h
    · exact hL h
  refine ⟨?_, by rw [processRawLocations_eq], by rw [processRawLocations_eq]⟩
  simp only [runAnalysis]
  rw [if_neg hor, if_pos hInv]

/-- Witness for C8: the location line "1234" is all digits but not of
length 5, so the run aborts with the invalid-ZIP bullet and no oracle
calls; the hypotheses are discharged at the concrete input. -/
theorem C8_invalid_locations_witness :
    ("t" : String) ≠ "" ∧ ("a" : String) ≠ "" ∧
    (processRawLocations (inputLines "1234")).2 ≠ [] ∧
    runAnalysis (fun _ => true) (fun _ => none) "t" "a" "1234" id id
      = (RunOutcome.invalidInput (processRawLocations (inputLines "1234")).2,
         ⟨[], 0, 0⟩) :=
  ⟨by decide, by decide, by decide,
   (C8_invalid_locations (fun _ => true) (fun _ => none) "t" "a" "1234" id id
     (by decide) (by decide) (by decide)).1⟩

end SeoRank

namespace SeoRank

theorem chunksGo_flatten {α : Type} (cs : Nat) (hcs : 1 ≤ cs) :
    ∀ (fuel : Nat) (l : List α), l.length ≤ fuel → (chunksGo cs fuel l).flatten = l := by
  intro fuel
  induction fuel with
  | zero =>
    intro l hl
    have hnil : l = [] := List.eq_nil_of_length_eq_zero (Nat.le_zero.mp hl)
    subst hnil
    rfl
  | succ fuel ih =>
    intro l hl
    cases l with
    | nil => rfl
    | cons x xs =>
      show ((x :: xs).take cs :: chunksGo cs fuel (xs.drop (cs - 1))).flatten = x :: xs
      rw [List.flatten_cons]
      have hfuel : (xs.drop (cs - 1)).length ≤ fuel := by
        simp only [List.length_drop]
        simp only [List.length_cons] at hl
        omega
      rw [ih (xs.drop (cs - 1)) hfuel]
      obtain ⟨c, rfl⟩ : ∃ c, cs = c + 1 := ⟨cs - 1, by omega⟩
      rw [List.take_succ_cons]
      simp [List.take_append_drop]

theorem chunksOf_flatten {α : Type} (cs : Nat) (hcs : 1 ≤ cs) (l : List α) :
    (chunksOf cs l).flatten = l :=
  chunksGo_flatten cs hcs l.length l (le_refl _)

theorem flatMap_filter_flatten {α : Type} (p : α → Bool) :
    ∀ (L : List (List α)), (L.flatMap fun c => c.filter p) = L.flatten.filter p := by
  intro L
  induction L with
  | nil => rfl
  | cons c t ih =>
    simp [List.flatMap_cons, List.flatten_cons, List.filter_append, ih]

theorem flatMap_filter_map_flatten {α β : Type} (p : α → Bool) (d : α → β) :
    ∀ (L : List (List α)),
      (L.flatMap fun c => (c.filter p).map d) = (L.flatten.filter p).map d := by
  intro L
  induction L with
  | nil => rfl
  | cons c t ih =>
    simp [List.flatMap_cons, List.flatten_cons, List.filter_append, List.map_append, ih]

theorem validateLocationsRun_perm (geo : Loc → Bool)
    (cR : List (List Loc) → List (List Loc)) (hC : ∀ L, (cR L).Perm L)
    (processed : List Loc) :
    (validateLocationsRun geo cR processed).1.Perm (processed.filter geo) ∧
    (validateLocationsRun geo cR processed).2.Perm
      ((processed.filter fun l => !geo l).map displayLoc) := by
  have hperm := hC (chunksOf (chunkSizeOf processed.length) processed)
  have hjoin : (chunksOf (chunkSizeOf processed.length) processed).flatten = processed :=
    chunksOf_flatten _ (le_max_left 1 _) processed
  constructor
  · have hp := hperm.flatMap_right fun c => c.filter geo
    rw [flatMap_filter_flatten geo (chunksOf (chunkSizeOf processed.length) processed),
      hjoin] at hp
    exact hp
  · have hp := hperm.flatMap_right fun c => (c.filter fun l => !geo l).map displayLoc
    rw [flatMap_filter_map_flatten (fun l => !geo l) displayLoc
      (chunksOf (chunkSizeOf processed.length) processed), hjoin] at hp
    exact hp

/-- Claim C9: on a well-formed location list, the chunked geocoding stage
drops exactly the oracle-rejected locations (the skipped-warning list is,
as a multiset, the display strings of the rejected locations) and keeps
exactly the accepted ones; if no location survives, the run aborts with the
no-valid-locations error having made zero provider calls; otherwise it
proceeds, building its queries from exactly the surviving valid
locations. -/
theorem C9_geocoding_validation (geo : Loc → Bool) (serp : QueryUnit → Option SerpData)
    (target_url kRaw lRaw : String)
    (cR : List (List Loc) → List (List Loc)) (qR : List QueryUnit → List QueryUnit)
    (hC : ∀ L, (cR L).Perm L)
    (hT : target_url ≠ "") (hK : kRaw ≠ "") (hL : lRaw ≠ "")
    (hOk : (processRawLocations (inputLines lRaw)).2 = []) :
    (validateLocationsRun geo cR (processRawLocations (inputLines lRaw)).1).1.Perm
      ((processRawLocations (inputLines lRaw)).1.filter geo) ∧
    (validateLocationsRun geo cR (processRawLocations (inputLines lRaw)).1).2.Perm
      (((processRawLocations (inputLines lRaw)).1.filter fun l => !geo l).map displayLoc) ∧
    ((processRawLocations (inputLines lRaw)).1.filter geo = [] →
      runAnalysis geo serp target_url kRaw lRaw cR qR
        = (RunOutcome.noValidLocations,
           ⟨(validateLocationsRun geo cR (processRawLocations (inputLines lRaw)).1).2,
            (processRawLocations (inputLines lRaw)).1.length, 0⟩)) ∧
    ((processRawLocations (inputLines lRaw)).1.filter geo ≠ [] →
      runAnalysis geo serp target_url kRaw lRaw cR qR
        = (RunOutcome.completed (parallel_process_queries serp target_url
            (qR (buildQueries
              (validateLocationsRun geo cR (processRawLocations (inputLines lRaw)).1).1
              (inputLines kRaw)))),
           ⟨(validateLocationsRun geo cR (processRawLocations (inputLines lRaw)).1).2,
            (processRawLocations (inputLines lRaw)).1.length,
            (qR (buildQueries
              (validateLocationsRun geo cR (processRawLocations (inputLines lRaw)).1).1
              (inputLines kRaw))).length⟩)) := by
  obtain ⟨hv, hs⟩ := validateLocationsRun_perm geo cR hC (processRawLocations (inputLines lRaw)).1
  have hor : ¬(target_url = "" ∨ kRaw = "" ∨ lRaw = "") := by
    rintro (h | h | h)
    · exact hT h
    · exact hK h
    · exact hL h
  have hnil : (validateLocationsRun geo cR (processRawLocations (inputLines lRaw)).1).1 = []
      ↔ (processRawLocations (inputLines lRaw)).1.filter geo = [] := by
    constructor
    · intro he
      exact (he ▸ hv).symm.eq_nil
    · intro hf
      exact (hf ▸ hv).eq_nil
  refine ⟨hv, hs, ?_, ?_⟩
  · intro hfil
    simp only [runAnalysis]
    rw [if_neg hor, if_neg (by simp [hOk]), if_pos (hnil.mpr hfil)]
  · intro hfil
    simp only [runAnalysis]
    rw [if_neg hor, if_neg (by simp [hOk]), if_neg (fun he => hfil (hnil.mp he))]

/-- Witness for C9: a single well-formed ZIP line rejected by the oracle;
all hypotheses are discharged at the concrete input and the run aborts with
no provider calls. -/
theorem C9_geocoding_validation_witness :
    (processRawLocations (inputLines "90210")).2 = [] ∧
    (processRawLocations (inputLines "90210")).1.filter (fun _ => false) = [] ∧
    runAnalysis (fun _ => false) (fun _ => none) "t" "a" "90210" id id
      = (RunOutcome.noValidLocations,
         ⟨(validateLocationsRun (fun _ => false) id
             (processRawLocations (inputLines "90210")).1).2,
          (processRawLocations (inputLines "90210")).1.length, 0⟩) :=
  ⟨by decide, by decide,
   (C9_geocoding_validation (fun _ => false) (fun _ => none) "t" "a" "90210" id id
     (fun L => List.Perm.refl L) (by decide) (by decide) (by decide)
     (by decide)).2.2.1 (by decide)⟩

end SeoRank
